import Mathlib

/-!
Verification development for the restaurant reservation system in
`src/Reservacion.py`.

The Python classes `Mesa`, `Reserva` and `Restaurante` are embedded as Lean
structures; the mutating Python methods become state-passing functions that
return their result together with the updated object.  A Python `dict` is
embedded as an insertion-ordered association list (`alookup` / `aset` /
`aupdate` below) whose lookup returns the first matching key, which agrees
with `dict` because keys are never duplicated by the operations used here.

The date-format check `Restaurante._validar_fecha` wraps the external library
call `datetime.datetime.strptime(fecha_str, "%Y-%m-%d")`; following the spec
it is treated as a black-box predicate, so every operation that consults it
takes an arbitrary predicate `vf : String → Bool` as a parameter.

The `input()` confirmation prompt inside `eliminar_reservacion` is an external
collaborator; its yes/no answer is passed in as an explicit `confirm : Bool`
argument (`confirm = true` corresponds to the user typing `s`).

A `Reserva` in Python holds a direct object reference to its `Mesa`; since
every such reference points into the registry's `mesas` list (which is created
once and never grows, shrinks or is reordered), the reference is embedded as
the index `mesa_idx` of that table in `Restaurante.mesas`.
-/

namespace Reservacion

/-- Lookup in an association list, first match wins: Python `d.get(k)` / `k in d`. -/
def alookup {α β : Type} [DecidableEq α] : List (α × β) → α → Option β
  | [], _ => none
  | (k, v) :: t, k' => if k' = k then some v else alookup t k'

/-- Replace the value stored at an existing key (first occurrence); identity when
the key is absent.  Python `d[k] = v` at the call sites of this development,
all of which guard on the key being present. -/
def aset {α β : Type} [DecidableEq α] : List (α × β) → α → β → List (α × β)
  | [], _, _ => []
  | (k, v) :: t, k', v' => if k' = k then (k, v') :: t else (k, v) :: aset t k' v'

/-- Apply a function to the value stored at an existing key (first occurrence);
identity when the key is absent. -/
def aupdate {α β : Type} [DecidableEq α] : List (α × β) → α → (β → β) → List (α × β)
  | [], _, _ => []
  | (k, v) :: t, k', g => if k' = k then (k, g v) :: t else (k, v) :: aupdate t k' g

/-- Python `range(a, b + 1)` over integers. -/
def intRange (a b : Int) : List Int :=
  (List.range (b + 1 - a).toNat).map (fun k : Nat => a + (k : Int))

/-- Hour → free? table for one date: Python inner dict `{hora: True/False}`. -/
abbrev HorasMap := List (Int × Bool)

/-- Date string → hour table: Python `Mesa.disponibilidad`. -/
abbrev DispoMap := List (String × HorasMap)

/-- Python class `Mesa`: table number, VIP flag, and per-date availability. -/
structure Mesa where
  numero : Int
  es_vip : Bool
  disponibilidad : DispoMap
deriving DecidableEq, Repr, Inhabited

/-- Python `Mesa.inicializar_dia`: if the date has no entry yet, create one
mapping every hour of `range(horario_inicio, horario_fin + 1)` to free. -/
def Mesa.inicializar_dia (m : Mesa) (fecha : String) (hi hf : Int) : Mesa :=
  if (alookup m.disponibilidad fecha).isSome then m
  else { m with disponibilidad :=
          m.disponibilidad ++ [(fecha, (intRange hi hf).map (fun hora => (hora, true)))] }

/-- Combined lookup `disponibilidad[fecha][hora]` as an `Option`:
`none` when the date or the hour key is missing. -/
def Mesa.slotGet (m : Mesa) (fecha : String) (hora : Int) : Option Bool :=
  (alookup m.disponibilidad fecha).bind (fun e => alookup e hora)

/-- Python `self.disponibilidad[fecha_str][hora] = b` (both keys present at
every call site). -/
def Mesa.slotSet (m : Mesa) (fecha : String) (hora : Int) (b : Bool) : Mesa :=
  { m with disponibilidad := aupdate m.disponibilidad fecha (fun e => aset e hora b) }

/-- Python `Mesa.reservar_hora`: initialize the day, then, if the hour exists in
the day's table and is free, mark it reserved and return success. -/
def Mesa.reservar_hora (m : Mesa) (fecha : String) (hora hi hf : Int) : Bool × Mesa :=
  let m1 := m.inicializar_dia fecha hi hf
  if m1.slotGet fecha hora = some true then (true, m1.slotSet fecha hora false)
  else (false, m1)

/-- Python `Mesa.liberar_hora`: if the date and hour both exist, mark the hour
free and return success; otherwise fail without touching the calendar. -/
def Mesa.liberar_hora (m : Mesa) (fecha : String) (hora : Int) : Bool × Mesa :=
  if (m.slotGet fecha hora).isSome then (true, m.slotSet fecha hora true)
  else (false, m)

/-- Python `Mesa.esta_disponible`: initialize the day, then
`self.disponibilidad.get(fecha_str, dictvacio).get(hora, False)`. -/
def Mesa.esta_disponible (m : Mesa) (fecha : String) (hora hi hf : Int) : Bool × Mesa :=
  let m1 := m.inicializar_dia fecha hi hf
  ((alookup ((alookup m1.disponibilidad fecha).getD []) hora).getD false, m1)

/-- Python class `Reserva`.  `mesa_idx` embeds the object reference
`Reserva.mesa` as an index into `Restaurante.mesas`; `folio` is the identifier
computed once by `Reserva._generar_folio` in the constructor. -/
structure Reserva where
  cliente_nombre : String
  fecha_str : String
  hora : Int
  mesa_idx : Nat
  folio : String
deriving DecidableEq, Repr

/-- Python `Reserva._generar_folio`: prefix `VX` for VIP tables, `GX`
otherwise, followed by the table number. -/
def generar_folio (m : Mesa) : String :=
  (if m.es_vip then "VX" else "GX") ++ toString m.numero

/-- Python `Reserva.__init__`: store the fields and derive the folio from the
referenced table. -/
def Reserva.make (cliente fecha : String) (hora : Int) (idx : Nat) (m : Mesa) : Reserva :=
  { cliente_nombre := cliente, fecha_str := fecha, hora := hora, mesa_idx := idx,
    folio := generar_folio m }

/-- Python class `Restaurante`: the table inventory, the reservation list and
the operating window. -/
structure Restaurante where
  mesas : List Mesa
  reservas : List Reserva
  horario_inicio : Int
  horario_fin : Int
deriving DecidableEq, Repr

/-- Python `Restaurante.__init__`: tables 1-5 general, 6-10 VIP, no
reservations, operating window 13-16. -/
def Restaurante.nuevo : Restaurante :=
  { mesas :=
      (intRange 1 5).map (fun i => { numero := i, es_vip := false, disponibilidad := [] })
        ++ (intRange 1 5).map (fun i => { numero := 5 + i, es_vip := true, disponibilidad := [] }),
    reservas := [],
    horario_inicio := 13,
    horario_fin := 16 }

/-- Python `Restaurante._validar_hora`:
`horario_inicio <= hora <= horario_fin`. -/
def Restaurante.validar_hora (st : Restaurante) (hora : Int) : Bool :=
  decide (st.horario_inicio ≤ hora ∧ hora ≤ st.horario_fin)

/-- First element satisfying the predicate together with its index: the Python
`for ... if ...: break` search loops in `hacer_reservacion` and
`eliminar_reservacion`. -/
def ffindPair {α : Type} (p : α → Bool) : List α → Option (Nat × α)
  | [] => none
  | a :: t => if p a then some (0, a) else (ffindPair p t).map (fun q => (q.1 + 1, q.2))

/-- Outcome of `hacer_reservacion`, one constructor per `print` branch of the
Python method (which returns the new `Reserva` on success and `None` on every
failure). -/
inductive ResultadoReserva where
  | missingFields
  | invalidDateFormat
  | invalidHour
  | resourceNotFound
  | slotUnavailable
  | internalInconsistency
  | success (r : Reserva)
deriving DecidableEq, Repr

/-- Python `Restaurante.hacer_reservacion`.  The Python guard
`not all([cliente_nombre, fecha_str, hora, numero_mesa])` is truthiness:
a string is falsy exactly when empty and an int exactly when zero. -/
def Restaurante.hacer_reservacion (st : Restaurante) (vf : String → Bool)
    (cliente fecha : String) (hora numero_mesa : Int) : ResultadoReserva × Restaurante :=
  if cliente = "" ∨ fecha = "" ∨ hora = 0 ∨ numero_mesa = 0 then (.missingFields, st)
  else if vf fecha = false then (.invalidDateFormat, st)
  else if st.validar_hora hora = false then (.invalidHour, st)
  else
    match ffindPair (fun m => m.numero == numero_mesa) st.mesas with
    | none => (.resourceNotFound, st)
    | some (i, mesa) =>
      let ed := mesa.esta_disponible fecha hora st.horario_inicio st.horario_fin
      if ed.1 = false then
        (.slotUnavailable, { st with mesas := st.mesas.set i ed.2 })
      else
        let rh := ed.2.reservar_hora fecha hora st.horario_inicio st.horario_fin
        if rh.1 = true then
          let r := Reserva.make cliente fecha hora i rh.2
          (.success r,
           { st with mesas := (st.mesas.set i ed.2).set i rh.2, reservas := st.reservas ++ [r] })
        else
          (.internalInconsistency, { st with mesas := (st.mesas.set i ed.2).set i rh.2 })

/-- Outcome of `eliminar_reservacion`, one constructor per `print` branch of
the Python method (which returns `True` only on a confirmed deletion). -/
inductive ResultadoCancel where
  | missingFields
  | invalidDateFormat
  | invalidHour
  | reservationNotFound
  | cancelledByUser
  | deleted
deriving DecidableEq, Repr

/-- Python `Restaurante.eliminar_reservacion`.  `confirm` is the answer of the
external `input()` confirmation prompt. -/
def Restaurante.eliminar_reservacion (st : Restaurante) (vf : String → Bool)
    (fecha : String) (hora : Int) (folio_mesa : String) (confirm : Bool) :
    ResultadoCancel × Restaurante :=
  if fecha = "" ∨ hora = 0 ∨ folio_mesa = "" then (.missingFields, st)
  else if vf fecha = false then (.invalidDateFormat, st)
  else if st.validar_hora hora = false then (.invalidHour, st)
  else
    match ffindPair
        (fun r => r.folio == folio_mesa && r.fecha_str == fecha && r.hora == hora)
        st.reservas with
    | none => (.reservationNotFound, st)
    | some (j, r) =>
      if confirm = false then (.cancelledByUser, st)
      else
        let st1 : Restaurante := { st with reservas := st.reservas.eraseIdx j }
        match st1.mesas[r.mesa_idx]? with
        | none => (.deleted, st1)
        | some m =>
          (.deleted, { st1 with mesas := st1.mesas.set r.mesa_idx (m.liberar_hora fecha hora).2 })

/-- Sort order of the availability report: Python
`sorted(self.mesas, key=lambda m: (not m.es_vip, m.numero))`. -/
def mesaLe (m1 m2 : Mesa) : Bool :=
  decide ((if m1.es_vip then (0 : Int) else 1) < (if m2.es_vip then (0 : Int) else 1))
    || ((if m1.es_vip then (0 : Int) else 1) == (if m2.es_vip then (0 : Int) else 1)
          && decide (m1.numero ≤ m2.numero))

/-- One iteration of the hour loop in `ver_disponibilidad`: query
`esta_disponible` (threading the mutated table) and append the hour's status
to the row. -/
def filaPaso (fecha : String) (hi hf : Int) (acc : Mesa × List (Int × Bool)) (hora : Int) :
    Mesa × List (Int × Bool) :=
  ((acc.1.esta_disponible fecha hora hi hf).2,
   acc.2 ++ [(hora, (acc.1.esta_disponible fecha hora hi hf).1)])

/-- One table's pass of the report loop in `ver_disponibilidad`: initialize the
day, then query `esta_disponible` for every hour of the window, threading the
table state through each query. -/
def mesaFila (m : Mesa) (fecha : String) (hi hf : Int) : Mesa × List (Int × Bool) :=
  (intRange hi hf).foldl (filaPaso fecha hi hf) (m.inicializar_dia fecha hi hf, [])

/-- Python `Restaurante.ver_disponibilidad`.  The report is returned as
structured data (table number, VIP flag, and hour → free pairs in the printed
order); `none` models the early return on an invalid date.  Each table object
of `self.mesas` is mutated once, so the new inventory is the pointwise update
of the original (unsorted) list. -/
def Restaurante.ver_disponibilidad (st : Restaurante) (vf : String → Bool) (fecha : String) :
    Option (List (Int × Bool × List (Int × Bool))) × Restaurante :=
  if vf fecha = false then (none, st)
  else
    (some ((st.mesas.mergeSort mesaLe).map
        (fun m => (m.numero, m.es_vip, (mesaFila m fecha st.horario_inicio st.horario_fin).2))),
     { st with mesas :=
        st.mesas.map (fun m => (mesaFila m fecha st.horario_inicio st.horario_fin).1) })

/-- One registry operation of a trace: a `hacer_reservacion` call or an
`eliminar_reservacion` call (with the external confirmation answer). -/
inductive Cmd where
  | book (cliente fecha : String) (hora numero : Int)
  | cancel (fecha : String) (hora : Int) (folio : String) (confirm : Bool)
deriving DecidableEq, Repr

/-- Execute one command, keeping the updated registry. -/
def paso (vf : String → Bool) (st : Restaurante) : Cmd → Restaurante
  | .book c f h n => (st.hacer_reservacion vf c f h n).2
  | .cancel f h fo conf => (st.eliminar_reservacion vf f h fo conf).2

/-- Execute a trace of booking/cancellation commands from a fresh registry. -/
def correr (vf : String → Bool) (cmds : List Cmd) : Restaurante :=
  cmds.foldl (paso vf) Restaurante.nuevo

/-- Calendar entry of table number `idx` (by position in the inventory) at a
given date and hour, `none` when not materialized. -/
def slotVal (st : Restaurante) (idx : Nat) (fecha : String) (hora : Int) : Option Bool :=
  match st.mesas[idx]? with
  | none => none
  | some m => m.slotGet fecha hora

/-- Immutable identity part of the inventory: numbers and VIP flags in order. -/
def mesaSig (st : Restaurante) : List (Int × Bool) :=
  st.mesas.map (fun m => (m.numero, m.es_vip))

/-- Folio that a reservation referencing inventory position `idx` must carry. -/
def folioIdx (st : Restaurante) (idx : Nat) : String :=
  match st.mesas[idx]? with
  | none => ""
  | some m => generar_folio m

/-- Resource id (table number) referenced by a reservation. -/
def resourceId (st : Restaurante) (r : Reserva) : Option Int :=
  (st.mesas[r.mesa_idx]?).map Mesa.numero

/-- Folio determined by an identity pair (number, VIP flag). -/
def folioSig (q : Int × Bool) : String :=
  (if q.2 then "VX" else "GX") ++ toString q.1

/-- Two reservations claim the same slot: same table position, date and hour. -/
def mismoSlot (r1 r2 : Reserva) : Prop :=
  r1.mesa_idx = r2.mesa_idx ∧ r1.fecha_str = r2.fecha_str ∧ r1.hora = r2.hora

/-- State invariant maintained by every trace of operations from a fresh
registry: the operating window and the inventory identities are the initial
ones; every active reservation points into the inventory, its slot is marked
occupied, and its folio is the one derived from its table; no two active
reservations claim the same slot; and every materialized date entry holds
exactly the window hours as keys. -/
def Inv (st : Restaurante) : Prop :=
  st.horario_inicio = 13 ∧ st.horario_fin = 16 ∧
  mesaSig st = mesaSig Restaurante.nuevo ∧
  (∀ r ∈ st.reservas, r.mesa_idx < st.mesas.length ∧
      slotVal st r.mesa_idx r.fecha_str r.hora = some false ∧
      r.folio = folioIdx st r.mesa_idx) ∧
  st.reservas.Pairwise (fun r1 r2 => ¬ mismoSlot r1 r2) ∧
  (∀ m ∈ st.mesas, ∀ p ∈ m.disponibilidad, p.2.map Prod.fst = intRange 13 16)

instance mismoSlotDecidable (r1 r2 : Reserva) : Decidable (mismoSlot r1 r2) := by
  unfold mismoSlot; infer_instance

instance invDecidable (st : Restaurante) : Decidable (Inv st) := by
  unfold Inv; infer_instance

/-- Date predicate accepting every string; used to instantiate the black-box
date validator in concrete runs. -/
def vfTodo : String → Bool := fun _ => true

/-- Folio carried by a successful booking outcome. -/
def resFolio : ResultadoReserva → Option String
  | .success r => some r.folio
  | _ => none

/-- Concrete registry after one successful booking: Ana books table 6 at 13:00
on 2025-07-10. -/
def stAna : Restaurante :=
  (Restaurante.nuevo.hacer_reservacion vfTodo "Ana" "2025-07-10" 13 6).2

/-! ### Association-list lemmas -/

theorem alookup_aset_self {α β : Type} [DecidableEq α] {l : List (α × β)} {k : α} {v : β}
    (h : (alookup l k).isSome) : alookup (aset l k v) k = some v := by
  induction l with
  | nil => simp [alookup] at h
  | cons p t ih =>
    obtain ⟨k0, v0⟩ := p
    by_cases hk : k = k0
    · simp [alookup, aset, hk]
    · simp only [alookup, aset, if_neg hk] at h ⊢
      exact ih h

theorem alookup_aset_ne {α β : Type} [DecidableEq α] {l : List (α × β)} {k k' : α} {v : β}
    (h : k' ≠ k) : alookup (aset l k v) k' = alookup l k' := by
  induction l with
  | nil => simp [aset]
  | cons p t ih =>
    obtain ⟨k0, v0⟩ := p
    by_cases hk : k = k0
    · subst hk
      simp [alookup, aset, if_neg h]
    · simp only [aset, if_neg hk, alookup]
      by_cases hk' : k' = k0
      · simp [hk']
      · simp [if_neg hk', ih]

theorem aset_keys {α β : Type} [DecidableEq α] (l : List (α × β)) (k : α) (v : β) :
    (aset l k v).map Prod.fst = l.map Prod.fst := by
  induction l with
  | nil => simp [aset]
  | cons p t ih =>
    obtain ⟨k0, v0⟩ := p
    by_cases hk : k = k0
    · simp [aset, hk]
    · simp [aset, if_neg hk, ih]

theorem alookup_aupdate_self {α β : Type} [DecidableEq α] {l : List (α × β)} {k : α}
    {v : β} {g : β → β} (h : alookup l k = some v) :
    alookup (aupdate l k g) k = some (g v) := by
  induction l with
  | nil => simp [alookup] at h
  | cons p t ih =>
    obtain ⟨k0, v0⟩ := p
    by_cases hk : k = k0
    · simp only [alookup, if_pos hk, Option.some.injEq] at h
      simp [aupdate, hk, alookup, h]
    · simp only [alookup, if_neg hk] at h
      simp [aupdate, if_neg (fun he => hk he), alookup, if_neg hk, ih h]

theorem alookup_aupdate_ne {α β : Type} [DecidableEq α] {l : List (α × β)} {k k' : α}
    {g : β → β} (h : k' ≠ k) : alookup (aupdate l k g) k' = alookup l k' := by
  induction l with
  | nil => simp [aupdate]
  | cons p t ih =>
    obtain ⟨k0, v0⟩ := p
    by_cases hk : k = k0
    · subst hk
      simp [aupdate, alookup, if_neg h]
    · simp only [aupdate, if_neg hk, alookup]
      by_cases hk' : k' = k0
      · simp [hk']
      · simp [if_neg hk', ih]

theorem aupdate_keys {α β : Type} [DecidableEq α] (l : List (α × β)) (k : α) (g : β → β) :
    (aupdate l k g).map Prod.fst = l.map Prod.fst := by
  induction l with
  | nil => simp [aupdate]
  | cons p t ih =>
    obtain ⟨k0, v0⟩ := p
    by_cases hk : k = k0
    · simp [aupdate, hk]
    · simp [aupdate, if_neg hk, ih]

theorem mem_aupdate {α β : Type} [DecidableEq α] {l : List (α × β)} {k : α} {g : β → β}
    {p : α × β} (h : p ∈ aupdate l k g) : p ∈ l ∨ ∃ v, (p.1, v) ∈ l ∧ p.2 = g v := by
  induction l with
  | nil => simp [aupdate] at h
  | cons q t ih =>
    obtain ⟨k0, v0⟩ := q
    by_cases hk : k = k0
    · simp only [aupdate, if_pos hk, List.mem_cons] at h
      rcases h with h | h
      · subst h
        exact Or.inr ⟨v0, by simp⟩
      · exact Or.inl (List.mem_cons_of_mem _ h)
    · simp only [aupdate, if_neg hk, List.mem_cons] at h
      rcases h with h | h
      · exact Or.inl (by simp [h])
      · rcases ih h with h' | ⟨v, hv, he⟩
        · exact Or.inl (List.mem_cons_of_mem _ h')
        · exact Or.inr ⟨v, List.mem_cons_of_mem _ hv, he⟩

theorem alookup_append_some {α β : Type} [DecidableEq α] {l t : List (α × β)} {k : α} {v : β}
    (h : alookup l k = some v) : alookup (l ++ t) k = some v := by
  induction l with
  | nil => simp [alookup] at h
  | cons p l' ih =>
    obtain ⟨k0, v0⟩ := p
    by_cases hk : k = k0
    · simp only [alookup, if_pos hk] at h
      simp [alookup, hk, h]
    · simp only [alookup, if_neg hk] at h ⊢
      exact ih h

theorem alookup_append_none {α β : Type} [DecidableEq α] {l t : List (α × β)} {k : α}
    (h : alookup l k = none) : alookup (l ++ t) k = alookup t k := by
  induction l with
  | nil => simp
  | cons p l' ih =>
    obtain ⟨k0, v0⟩ := p
    by_cases hk : k = k0
    · simp [alookup, if_pos hk] at h
    · simp only [alookup, if_neg hk] at h ⊢
      exact ih h

theorem alookup_mem {α β : Type} [DecidableEq α] {l : List (α × β)} {k : α} {v : β}
    (h : alookup l k = some v) : (k, v) ∈ l := by
  induction l with
  | nil => simp [alookup] at h
  | cons p t ih =>
    obtain ⟨k0, v0⟩ := p
    by_cases hk : k = k0
    · simp only [alookup, if_pos hk, Option.some.injEq] at h
      subst hk
      simp [h.symm]
    · simp only [alookup, if_neg hk] at h
      exact List.mem_cons_of_mem _ (ih h)

theorem alookup_isSome_of_mem_keys {α β : Type} [DecidableEq α] {l : List (α × β)} {k : α}
    (h : k ∈ l.map Prod.fst) : (alookup l k).isSome := by
  induction l with
  | nil => simp at h
  | cons p t ih =>
    obtain ⟨k0, v0⟩ := p
    by_cases hk : k = k0
    · simp [alookup, hk]
    · simp only [List.map_cons, List.mem_cons] at h
      rcases h with h | h
      · exact absurd h hk
      · simp only [alookup, if_neg hk]
        exact ih h

theorem mem_intRange {a b h : Int} : h ∈ intRange a b ↔ a ≤ h ∧ h ≤ b := by
  simp only [intRange, List.mem_map, List.mem_range]
  constructor
  · rintro ⟨k, hk, rfl⟩
    omega
  · rintro ⟨h1, h2⟩
    exact ⟨(h - a).toNat, by omega, by omega⟩

theorem alookup_constmap {xs : List Int} {c : Bool} {k : Int} :
    alookup (xs.map (fun x => (x, c))) k = if k ∈ xs then some c else none := by
  induction xs with
  | nil => simp [alookup]
  | cons x t ih =>
    by_cases hk : k = x
    · simp [alookup, hk]
    · simp [alookup, if_neg hk, ih, hk]

/-! ### Mesa lemmas -/

theorem inicializar_of_isSome {m : Mesa} {f : String} {hi hf : Int}
    (h : (alookup m.disponibilidad f).isSome) : m.inicializar_dia f hi hf = m := by
  simp [Mesa.inicializar_dia, h]

theorem inicializar_numero (m : Mesa) (f : String) (hi hf : Int) :
    (m.inicializar_dia f hi hf).numero = m.numero := by
  unfold Mesa.inicializar_dia
  split <;> rfl

theorem inicializar_es_vip (m : Mesa) (f : String) (hi hf : Int) :
    (m.inicializar_dia f hi hf).es_vip = m.es_vip := by
  unfold Mesa.inicializar_dia
  split <;> rfl

theorem inicializar_isSome (m : Mesa) (f : String) (hi hf : Int) :
    (alookup (m.inicializar_dia f hi hf).disponibilidad f).isSome := by
  unfold Mesa.inicializar_dia
  split
  · assumption
  · next hn =>
    rw [Option.not_isSome_iff_eq_none] at hn
    simp only
    rw [alookup_append_none hn]
    simp [alookup]

theorem slotGet_inicializar_of_some {m : Mesa} {f' : String} {h' : Int} {b : Bool}
    {f : String} {hi hf : Int} (h : m.slotGet f' h' = some b) :
    (m.inicializar_dia f hi hf).slotGet f' h' = some b := by
  unfold Mesa.inicializar_dia
  split
  · exact h
  · unfold Mesa.slotGet at h ⊢
    simp only
    obtain ⟨e, he, hb⟩ := Option.bind_eq_some.mp h
    rw [alookup_append_some he]
    simpa using hb

theorem slotGet_inicializar_self_none {m : Mesa} {f : String} {h hi hf : Int}
    (hn : alookup m.disponibilidad f = none) :
    (m.inicializar_dia f hi hf).slotGet f h =
      if hi ≤ h ∧ h ≤ hf then some true else none := by
  unfold Mesa.inicializar_dia
  rw [if_neg (by simp [hn])]
  unfold Mesa.slotGet
  dsimp only
  rw [alookup_append_none hn]
  simp [alookup, alookup_constmap, mem_intRange]

theorem slotGet_inicializar_ne {m : Mesa} {f' f : String} {h' hi hf : Int} (hne : f' ≠ f) :
    (m.inicializar_dia f hi hf).slotGet f' h' = m.slotGet f' h' := by
  unfold Mesa.inicializar_dia
  split
  · rfl
  · unfold Mesa.slotGet
    simp only
    cases ho : alookup m.disponibilidad f' with
    | some e => rw [alookup_append_some ho]
    | none =>
      rw [alookup_append_none ho]
      simp [alookup, hne]

theorem slotGet_inicializar_false_iff {m : Mesa} {f' f : String} {h' hi hf : Int} :
    (m.inicializar_dia f hi hf).slotGet f' h' = some false ↔ m.slotGet f' h' = some false := by
  constructor
  · intro h
    by_cases hf' : f' = f
    · subst hf'
      cases ho : alookup m.disponibilidad f' with
      | some e =>
        rwa [inicializar_of_isSome (by simp [ho])] at h
      | none =>
        rw [slotGet_inicializar_self_none ho] at h
        split at h <;> simp at h
    · rwa [slotGet_inicializar_ne hf'] at h
  · exact slotGet_inicializar_of_some

theorem slotSet_numero (m : Mesa) (f : String) (hh : Int) (b : Bool) :
    (m.slotSet f hh b).numero = m.numero := rfl

theorem slotSet_es_vip (m : Mesa) (f : String) (hh : Int) (b : Bool) :
    (m.slotSet f hh b).es_vip = m.es_vip := rfl

theorem aupdate_of_none {α β : Type} [DecidableEq α] {l : List (α × β)} {k : α} {g : β → β}
    (h : alookup l k = none) : aupdate l k g = l := by
  induction l with
  | nil => rfl
  | cons p t ih =>
    obtain ⟨k0, v0⟩ := p
    by_cases hk : k = k0
    · simp [alookup, if_pos hk] at h
    · simp only [alookup, if_neg hk] at h
      simp [aupdate, if_neg hk, ih h]

theorem slotGet_slotSet_self {m : Mesa} {f : String} {hh : Int} {b : Bool}
    (h : (m.slotGet f hh).isSome) : (m.slotSet f hh b).slotGet f hh = some b := by
  unfold Mesa.slotGet Mesa.slotSet at *
  dsimp only
  cases ho : alookup m.disponibilidad f with
  | none => rw [ho] at h; simp at h
  | some e =>
    rw [ho] at h
    have h2 : (alookup e hh).isSome := by simpa using h
    rw [alookup_aupdate_self ho]
    simpa using alookup_aset_self h2

theorem slotGet_slotSet_ne {m : Mesa} {f f' : String} {hh h' : Int} {b : Bool}
    (hne : ¬(f' = f ∧ h' = hh)) :
    (m.slotSet f hh b).slotGet f' h' = m.slotGet f' h' := by
  unfold Mesa.slotGet Mesa.slotSet
  dsimp only
  by_cases hf : f' = f
  · subst hf
    have hne' : h' ≠ hh := fun he => hne ⟨rfl, he⟩
    cases ho : alookup m.disponibilidad f' with
    | none => rw [aupdate_of_none ho, ho]
    | some e =>
      rw [alookup_aupdate_self ho]
      simpa using alookup_aset_ne hne'
  · rw [alookup_aupdate_ne hf]

theorem slotSet_keys (m : Mesa) (f : String) (hh : Int) (b : Bool) :
    (m.slotSet f hh b).disponibilidad.map Prod.fst = m.disponibilidad.map Prod.fst :=
  aupdate_keys ..

theorem slotSet_entry_keys {m : Mesa} {f : String} {hh : Int} {b : Bool}
    {p : String × HorasMap} (hp : p ∈ (m.slotSet f hh b).disponibilidad) :
    ∃ q ∈ m.disponibilidad, p.2.map Prod.fst = q.2.map Prod.fst := by
  rcases mem_aupdate hp with h | ⟨v, hv, he⟩
  · exact ⟨p, h, rfl⟩
  · exact ⟨(p.1, v), hv, by rw [he]; exact aset_keys ..⟩

theorem inicializar_entry_mem {m : Mesa} {f : String} {hi hf : Int}
    {p : String × HorasMap} (hp : p ∈ (m.inicializar_dia f hi hf).disponibilidad) :
    p ∈ m.disponibilidad ∨ p = (f, (intRange hi hf).map (fun hora => (hora, true))) := by
  unfold Mesa.inicializar_dia at hp
  split at hp
  · exact Or.inl hp
  · simp only [List.mem_append, List.mem_singleton] at hp
    exact hp

theorem esta_disponible_eq (m : Mesa) (f : String) (h hi hf : Int) :
    m.esta_disponible f h hi hf =
      (((m.inicializar_dia f hi hf).slotGet f h).getD false, m.inicializar_dia f hi hf) := by
  unfold Mesa.esta_disponible Mesa.slotGet
  cases ho : alookup (m.inicializar_dia f hi hf).disponibilidad f <;> simp [ho, alookup]

theorem reservar_hora_initialized_free {m1 : Mesa} {f : String} {h hi hf : Int}
    (hin : (alookup m1.disponibilidad f).isSome) (hfree : m1.slotGet f h = some true) :
    m1.reservar_hora f h hi hf = (true, m1.slotSet f h false) := by
  unfold Mesa.reservar_hora
  rw [inicializar_of_isSome hin]
  simp [hfree]

theorem liberar_hora_of_isSome {m : Mesa} {f : String} {h : Int}
    (hs : (m.slotGet f h).isSome) : m.liberar_hora f h = (true, m.slotSet f h true) := by
  simp [Mesa.liberar_hora, hs]

theorem liberar_hora_of_none {m : Mesa} {f : String} {h : Int}
    (hs : m.slotGet f h = none) : m.liberar_hora f h = (false, m) := by
  simp [Mesa.liberar_hora, hs]

/-! ### List helper lemmas -/

theorem ffindPair_some {α : Type} {p : α → Bool} {l : List α} {i : Nat} {a : α}
    (h : ffindPair p l = some (i, a)) : l[i]? = some a ∧ p a = true := by
  induction l generalizing i with
  | nil => simp [ffindPair] at h
  | cons x t ih =>
    by_cases hx : p x
    · simp only [ffindPair, if_pos hx, Option.some.injEq, Prod.mk.injEq] at h
      obtain ⟨rfl, rfl⟩ := h
      exact ⟨by simp, hx⟩
    · simp only [ffindPair, if_neg hx] at h
      cases hft : ffindPair p t with
      | none => rw [hft] at h; exact absurd h (by simp)
      | some q =>
        obtain ⟨j, b⟩ := q
        rw [hft] at h
        simp only [Option.map_some', Option.some.injEq, Prod.mk.injEq] at h
        obtain ⟨rfl, rfl⟩ := h
        simpa using ih hft

theorem ffindPair_append_singleton {α : Type} {p : α → Bool} {l : List α} {a : α}
    (hall : ∀ x ∈ l, p x = false) (hp : p a = true) :
    ffindPair p (l ++ [a]) = some (l.length, a) := by
  induction l with
  | nil => simp [ffindPair, hp]
  | cons x t ih =>
    have hx : p x = false := hall x (List.mem_cons_self x t)
    have ih' := ih (fun y hy => hall y (List.mem_cons_of_mem x hy))
    simp [ffindPair, hx, ih']

theorem eraseIdx_append_length {α : Type} (l : List α) (a : α) :
    (l ++ [a]).eraseIdx l.length = l := by
  induction l with
  | nil => rfl
  | cons x t ih => simp [List.eraseIdx_cons_succ, ih]

theorem set_self_of_getElem? {α : Type} {l : List α} {i : Nat} {a : α}
    (h : l[i]? = some a) : l.set i a = l := by
  apply List.ext_getElem?
  intro n
  by_cases hn : n = i
  · subst hn
    rw [List.getElem?_set_self (List.getElem?_eq_some.mp h).1, h]
  · rw [List.getElem?_set_ne (fun he => hn he.symm)]

theorem pairwise_eraseIdx_rel {α : Type} {R : α → α → Prop} {l : List α} {j : Nat} {r0 : α}
    (hp : l.Pairwise R) (hj : l[j]? = some r0) :
    ∀ r' ∈ l.eraseIdx j, R r0 r' ∨ R r' r0 := by
  induction l generalizing j with
  | nil => simp at hj
  | cons x t ih =>
    rcases hp with _ | ⟨hx, ht⟩
    cases j with
    | zero =>
      simp only [List.getElem?_cons_zero, Option.some.injEq] at hj
      subst hj
      intro r' hr'
      simp only [List.eraseIdx_cons_zero] at hr'
      exact Or.inl (hx r' hr')
    | succ j' =>
      intro r' hr'
      simp only [List.eraseIdx_cons_succ, List.mem_cons] at hr'
      simp only [List.getElem?_cons_succ] at hj
      rcases hr' with rfl | hr'
      · obtain ⟨hlt, he⟩ := List.getElem?_eq_some.mp hj
        exact Or.inr (hx r0 (he ▸ List.getElem_mem hlt))
      · exact ih ht hj r' hr'

theorem mem_set_cases {α : Type} {l : List α} {i : Nat} {a b : α}
    (h : a ∈ l.set i b) : a = b ∨ a ∈ l := by
  induction l generalizing i with
  | nil => simp at h
  | cons x t ih =>
    cases i with
    | zero =>
      simp only [List.set_cons_zero, List.mem_cons] at h
      rcases h with rfl | h
      · exact Or.inl rfl
      · exact Or.inr (List.mem_cons_of_mem x h)
    | succ i' =>
      simp only [List.set_cons_succ, List.mem_cons] at h
      rcases h with rfl | h
      · exact Or.inr (List.mem_cons_self a t)
      · rcases ih h with h' | h'
        · exact Or.inl h'
        · exact Or.inr (List.mem_cons_of_mem x h')

theorem mem_of_mem_eraseIdx {α : Type} {l : List α} {j : Nat} {a : α}
    (h : a ∈ l.eraseIdx j) : a ∈ l :=
  (List.eraseIdx_sublist l j).subset h

/-! ### Branch equations for hacer_reservacion -/

theorem hacer_eq_missing {st : Restaurante} {vf : String → Bool} {c f : String} {h n : Int}
    (hc : c = "" ∨ f = "" ∨ h = 0 ∨ n = 0) :
    st.hacer_reservacion vf c f h n = (.missingFields, st) := by
  unfold Restaurante.hacer_reservacion
  rw [if_pos hc]

theorem hacer_eq_badDate {st : Restaurante} {vf : String → Bool} {c f : String} {h n : Int}
    (hc : ¬(c = "" ∨ f = "" ∨ h = 0 ∨ n = 0)) (hvf : vf f = false) :
    st.hacer_reservacion vf c f h n = (.invalidDateFormat, st) := by
  unfold Restaurante.hacer_reservacion
  rw [if_neg hc, if_pos hvf]

theorem hacer_eq_badHora {st : Restaurante} {vf : String → Bool} {c f : String} {h n : Int}
    (hc : ¬(c = "" ∨ f = "" ∨ h = 0 ∨ n = 0)) (hvf : vf f = true)
    (hh : st.validar_hora h = false) :
    st.hacer_reservacion vf c f h n = (.invalidHour, st) := by
  unfold Restaurante.hacer_reservacion
  rw [if_neg hc, if_neg (by simp [hvf]), if_pos hh]

theorem hacer_eq_noMesa {st : Restaurante} {vf : String → Bool} {c f : String} {h n : Int}
    (hc : ¬(c = "" ∨ f = "" ∨ h = 0 ∨ n = 0)) (hvf : vf f = true)
    (hh : st.validar_hora h = true)
    (hfind : ffindPair (fun m => m.numero == n) st.mesas = none) :
    st.hacer_reservacion vf c f h n = (.resourceNotFound, st) := by
  unfold Restaurante.hacer_reservacion
  rw [if_neg hc, if_neg (by simp [hvf]), if_neg (by simp [hh]), hfind]

theorem hacer_eq_noDisp {st : Restaurante} {vf : String → Bool} {c f : String} {h n : Int}
    {i : Nat} {mesa : Mesa}
    (hc : ¬(c = "" ∨ f = "" ∨ h = 0 ∨ n = 0)) (hvf : vf f = true)
    (hh : st.validar_hora h = true)
    (hfind : ffindPair (fun m => m.numero == n) st.mesas = some (i, mesa))
    (hocc : ((mesa.inicializar_dia f st.horario_inicio st.horario_fin).slotGet f h).getD false
        = false) :
    st.hacer_reservacion vf c f h n =
      (.slotUnavailable,
       { st with mesas :=
          st.mesas.set i (mesa.inicializar_dia f st.horario_inicio st.horario_fin) }) := by
  unfold Restaurante.hacer_reservacion
  rw [if_neg hc, if_neg (by simp [hvf]), if_neg (by simp [hh]), hfind]
  simp [esta_disponible_eq, hocc]

theorem hacer_eq_success {st : Restaurante} {vf : String → Bool} {c f : String} {h n : Int}
    {i : Nat} {mesa : Mesa}
    (hc : ¬(c = "" ∨ f = "" ∨ h = 0 ∨ n = 0)) (hvf : vf f = true)
    (hh : st.validar_hora h = true)
    (hfind : ffindPair (fun m => m.numero == n) st.mesas = some (i, mesa))
    (hfree : (mesa.inicializar_dia f st.horario_inicio st.horario_fin).slotGet f h
        = some true) :
    st.hacer_reservacion vf c f h n =
      (.success (Reserva.make c f h i
          ((mesa.inicializar_dia f st.horario_inicio st.horario_fin).slotSet f h false)),
       { st with
          mesas := st.mesas.set i
            ((mesa.inicializar_dia f st.horario_inicio st.horario_fin).slotSet f h false),
          reservas := st.reservas ++ [Reserva.make c f h i
            ((mesa.inicializar_dia f st.horario_inicio st.horario_fin).slotSet f h false)] }) := by
  unfold Restaurante.hacer_reservacion
  rw [if_neg hc, if_neg (by simp [hvf]), if_neg (by simp [hh]), hfind]
  have hin : (alookup (mesa.inicializar_dia f st.horario_inicio st.horario_fin).disponibilidad
      f).isSome := inicializar_isSome ..
  simp only [esta_disponible_eq, hfree]
  rw [if_neg (by simp)]
  rw [reservar_hora_initialized_free hin hfree]
  simp [List.set_set]

/-! ### Branch equations for eliminar_reservacion -/

theorem eliminar_eq_missing {st : Restaurante} {vf : String → Bool} {f fo : String}
    {h : Int} {conf : Bool} (hc : f = "" ∨ h = 0 ∨ fo = "") :
    st.eliminar_reservacion vf f h fo conf = (.missingFields, st) := by
  unfold Restaurante.eliminar_reservacion
  rw [if_pos hc]

theorem eliminar_eq_badDate {st : Restaurante} {vf : String → Bool} {f fo : String}
    {h : Int} {conf : Bool} (hc : ¬(f = "" ∨ h = 0 ∨ fo = "")) (hvf : vf f = false) :
    st.eliminar_reservacion vf f h fo conf = (.invalidDateFormat, st) := by
  unfold Restaurante.eliminar_reservacion
  rw [if_neg hc, if_pos hvf]

theorem eliminar_eq_badHora {st : Restaurante} {vf : String → Bool} {f fo : String}
    {h : Int} {conf : Bool} (hc : ¬(f = "" ∨ h = 0 ∨ fo = "")) (hvf : vf f = true)
    (hh : st.validar_hora h = false) :
    st.eliminar_reservacion vf f h fo conf = (.invalidHour, st) := by
  unfold Restaurante.eliminar_reservacion
  rw [if_neg hc, if_neg (by simp [hvf]), if_pos hh]

theorem eliminar_eq_notFound {st : Restaurante} {vf : String → Bool} {f fo : String}
    {h : Int} {conf : Bool} (hc : ¬(f = "" ∨ h = 0 ∨ fo = "")) (hvf : vf f = true)
    (hh : st.validar_hora h = true)
    (hfind : ffindPair
        (fun r => r.folio == fo && r.fecha_str == f && r.hora == h) st.reservas = none) :
    st.eliminar_reservacion vf f h fo conf = (.reservationNotFound, st) := by
  unfold Restaurante.eliminar_reservacion
  rw [if_neg hc, if_neg (by simp [hvf]), if_neg (by simp [hh]), hfind]

theorem eliminar_eq_cancelled {st : Restaurante} {vf : String → Bool} {f fo : String}
    {h : Int} {j : Nat} {r0 : Reserva}
    (hc : ¬(f = "" ∨ h = 0 ∨ fo = "")) (hvf : vf f = true)
    (hh : st.validar_hora h = true)
    (hfind : ffindPair
        (fun r => r.folio == fo && r.fecha_str == f && r.hora == h) st.reservas
        = some (j, r0)) :
    st.eliminar_reservacion vf f h fo false = (.cancelledByUser, st) := by
  unfold Restaurante.eliminar_reservacion
  rw [if_neg hc, if_neg (by simp [hvf]), if_neg (by simp [hh]), hfind]
  simp

theorem eliminar_eq_deleted {st : Restaurante} {vf : String → Bool} {f fo : String}
    {h : Int} {j : Nat} {r0 : Reserva} {m : Mesa}
    (hc : ¬(f = "" ∨ h = 0 ∨ fo = "")) (hvf : vf f = true)
    (hh : st.validar_hora h = true)
    (hfind : ffindPair
        (fun r => r.folio == fo && r.fecha_str == f && r.hora == h) st.reservas
        = some (j, r0))
    (hm : st.mesas[r0.mesa_idx]? = some m) :
    st.eliminar_reservacion vf f h fo true =
      (.deleted,
       { st with reservas := st.reservas.eraseIdx j,
                 mesas := st.mesas.set r0.mesa_idx (m.liberar_hora f h).2 }) := by
  unfold Restaurante.eliminar_reservacion
  rw [if_neg hc, if_neg (by simp [hvf]), if_neg (by simp [hh]), hfind]
  simp [hm]

/-! ### State-level helper lemmas -/

theorem lt_of_getElem?_some {α : Type} {l : List α} {i : Nat} {a : α}
    (h : l[i]? = some a) : i < l.length :=
  (List.getElem?_eq_some.mp h).1

theorem mem_of_getElem?_some {α : Type} {l : List α} {i : Nat} {a : α}
    (h : l[i]? = some a) : a ∈ l := by
  obtain ⟨hlt, he⟩ := List.getElem?_eq_some.mp h
  exact he ▸ List.getElem_mem hlt

theorem slotVal_eq {st : Restaurante} {i : Nat} {mesa : Mesa} {f : String} {h : Int}
    (hmi : st.mesas[i]? = some mesa) : slotVal st i f h = mesa.slotGet f h := by
  unfold slotVal
  rw [hmi]

theorem slotVal_set_ne {st st' : Restaurante} {i j : Nat} {m1 : Mesa} {f : String} {h : Int}
    (hm : st'.mesas = st.mesas.set i m1) (hne : j ≠ i) :
    slotVal st' j f h = slotVal st j f h := by
  unfold slotVal
  rw [hm, List.getElem?_set_ne (Ne.symm hne)]

theorem slotVal_set_self {st st' : Restaurante} {i : Nat} {m1 : Mesa} {f : String} {h : Int}
    (hm : st'.mesas = st.mesas.set i m1) (hi : i < st.mesas.length) :
    slotVal st' i f h = m1.slotGet f h := by
  unfold slotVal
  rw [hm, List.getElem?_set_self hi]

theorem mesaSig_set {st st' : Restaurante} {i : Nat} {mesa m1 : Mesa}
    (hm : st'.mesas = st.mesas.set i m1) (hmi : st.mesas[i]? = some mesa)
    (hn : m1.numero = mesa.numero) (hv : m1.es_vip = mesa.es_vip) :
    mesaSig st' = mesaSig st := by
  unfold mesaSig
  rw [hm, List.map_set]
  apply set_self_of_getElem?
  rw [List.getElem?_map, hmi]
  simp [hn, hv]

theorem folioIdx_eq_sig (st : Restaurante) (j : Nat) :
    folioIdx st j = (((mesaSig st)[j]?).map folioSig).getD "" := by
  unfold folioIdx mesaSig folioSig generar_folio
  rw [List.getElem?_map]
  cases st.mesas[j]? <;> simp

theorem resourceId_eq_sig (st : Restaurante) (r : Reserva) :
    resourceId st r = ((mesaSig st)[r.mesa_idx]?).map Prod.fst := by
  unfold resourceId mesaSig
  rw [List.getElem?_map]
  cases st.mesas[r.mesa_idx]? <;> simp

theorem mesas_length_eq_sig (st : Restaurante) : st.mesas.length = (mesaSig st).length :=
  (List.length_map ..).symm

theorem nuevo_sig_len : (mesaSig Restaurante.nuevo).length = 10 := by decide

theorem sig_fst_inj :
    ∀ i < 10, ∀ j < 10,
      ((mesaSig Restaurante.nuevo)[i]?).map Prod.fst
          = ((mesaSig Restaurante.nuevo)[j]?).map Prod.fst → i = j := by
  decide

theorem sig_folio_inj :
    ∀ i < 10, ∀ j < 10,
      (((mesaSig Restaurante.nuevo)[i]?).map folioSig).getD ""
          = (((mesaSig Restaurante.nuevo)[j]?).map folioSig).getD "" → i = j := by
  decide

theorem sig_folio_ne_empty :
    ∀ i < 10, (((mesaSig Restaurante.nuevo)[i]?).map folioSig).getD "" ≠ "" := by
  decide

/-! ### Invariant preservation -/

theorem keys_intRange_map (hi hf : Int) :
    ((intRange hi hf).map (fun hora => (hora, true))).map Prod.fst = intRange hi hf := by
  rw [List.map_map]
  exact List.map_id (intRange hi hf)

theorem inv_materializa {st : Restaurante} {i : Nat} {mesa : Mesa} {f : String}
    (hInv : Inv st) (hmi : st.mesas[i]? = some mesa) :
    Inv { st with mesas :=
        st.mesas.set i (mesa.inicializar_dia f st.horario_inicio st.horario_fin) } := by
  obtain ⟨hI, hF, hsig, hres, hpw, hkeys⟩ := hInv
  have hlt : i < st.mesas.length := lt_of_getElem?_some hmi
  have hsig' :
      mesaSig
          { st with
            mesas := (st.mesas.set i
              (mesa.inicializar_dia f st.horario_inicio st.horario_fin)) }
        = mesaSig st :=
    mesaSig_set rfl hmi (inicializar_numero ..) (inicializar_es_vip ..)
  refine ⟨hI, hF, hsig'.trans hsig, ?_, hpw, ?_⟩
  · intro r hr
    obtain ⟨hrlt, hslot, hfolio⟩ := hres r hr
    refine ⟨by simpa using hrlt, ?_, ?_⟩
    · by_cases hj : r.mesa_idx = i
      · rw [hj, slotVal_set_self rfl hlt]
        rw [hj, slotVal_eq hmi] at hslot
        exact slotGet_inicializar_of_some hslot
      · rw [slotVal_set_ne rfl hj]
        exact hslot
    · rw [hfolio, folioIdx_eq_sig, folioIdx_eq_sig, hsig'.trans hsig]
      rw [hsig]
  · intro m' hm' p hp
    rcases mem_set_cases hm' with rfl | hm''
    · rcases inicializar_entry_mem hp with hp' | hp'
      · exact hkeys mesa (mem_of_getElem?_some hmi) p hp'
      · rw [hp']
        simp only
        rw [keys_intRange_map, hI, hF]
    · exact hkeys m' hm'' p hp

theorem inv_success {st : Restaurante} {i : Nat} {mesa : Mesa} {c f : String} {h : Int}
    (hInv : Inv st) (hmi : st.mesas[i]? = some mesa)
    (hfree : (mesa.inicializar_dia f st.horario_inicio st.horario_fin).slotGet f h
        = some true) :
    Inv { st with
          mesas := (st.mesas.set i
            ((mesa.inicializar_dia f st.horario_inicio st.horario_fin).slotSet f h false)),
          reservas := (st.reservas ++ [Reserva.make c f h i
            ((mesa.inicializar_dia f st.horario_inicio st.horario_fin).slotSet f h false)]) } := by
  obtain ⟨hI, hF, hsig, hres, hpw, hkeys⟩ := hInv
  have hlt : i < st.mesas.length := lt_of_getElem?_some hmi
  set m1 := mesa.inicializar_dia f st.horario_inicio st.horario_fin with hm1def
  set m2 := m1.slotSet f h false with hm2def
  have hm2n : m2.numero = mesa.numero := by
    rw [hm2def, slotSet_numero, hm1def, inicializar_numero]
  have hm2v : m2.es_vip = mesa.es_vip := by
    rw [hm2def, slotSet_es_vip, hm1def, inicializar_es_vip]
  have hsome : (m1.slotGet f h).isSome := by simp [hfree]
  have hsig' :
      mesaSig { st with
          mesas := st.mesas.set i m2,
          reservas := st.reservas ++ [Reserva.make c f h i m2] } = mesaSig st :=
    mesaSig_set rfl hmi hm2n hm2v
  have hold : ∀ r' ∈ st.reservas, ¬ mismoSlot r' (Reserva.make c f h i m2) := by
    intro r' hr' hms
    obtain ⟨hidx, hfd, hhd⟩ := hms
    simp only [Reserva.make] at hidx hfd hhd
    obtain ⟨hrlt, hslot, hfolio⟩ := hres r' hr'
    rw [hidx, hfd, hhd] at hslot
    rw [slotVal_eq hmi] at hslot
    have : m1.slotGet f h = some false := slotGet_inicializar_of_some hslot
    rw [hfree] at this
    simp at this
  refine ⟨hI, hF, hsig'.trans hsig, ?_, ?_, ?_⟩
  · intro r hr
    rcases List.mem_append.mp hr with hrold | hrnew
    · obtain ⟨hrlt, hslot, hfolio⟩ := hres r hrold
      refine ⟨by simpa using hrlt, ?_, ?_⟩
      · by_cases hj : r.mesa_idx = i
        · rw [hj, slotVal_set_self rfl hlt]
          rw [hj, slotVal_eq hmi] at hslot
          have hm1slot : m1.slotGet r.fecha_str r.hora = some false :=
            slotGet_inicializar_of_some hslot
          by_cases hsame : r.fecha_str = f ∧ r.hora = h
          · rw [hsame.1, hsame.2, hfree] at hm1slot
            simp at hm1slot
          · rw [hm2def, slotGet_slotSet_ne hsame]
            exact hm1slot
        · rw [slotVal_set_ne rfl hj]
          exact hslot
      · rw [hfolio, folioIdx_eq_sig, folioIdx_eq_sig, hsig'.trans hsig, hsig]
    · rw [List.mem_singleton.mp hrnew]
      simp only [Reserva.make]
      refine ⟨by simpa using hlt, ?_, ?_⟩
      · rw [slotVal_set_self rfl hlt]
        exact slotGet_slotSet_self hsome
      · show generar_folio m2 = _
        unfold folioIdx
        simp only [List.getElem?_set_self hlt]
  · rw [List.pairwise_append]
    refine ⟨hpw, by simp, ?_⟩
    intro r' hr' rn hrn
    rw [List.mem_singleton.mp hrn]
    exact hold r' hr'
  · intro m' hm' p hp
    rcases mem_set_cases hm' with rfl | hm''
    · obtain ⟨q, hq, hkeq⟩ := slotSet_entry_keys hp
      rw [hkeq]
      rcases inicializar_entry_mem hq with hq' | hq'
      · exact hkeys mesa (mem_of_getElem?_some hmi) q hq'
      · rw [hq']
        simp only
        rw [keys_intRange_map, hI, hF]
    · exact hkeys m' hm'' p hp

theorem mismoSlot_symm {r1 r2 : Reserva} (h : mismoSlot r1 r2) : mismoSlot r2 r1 :=
  ⟨h.1.symm, h.2.1.symm, h.2.2.symm⟩

theorem inv_hacer {vf : String → Bool} {st : Restaurante} {c f : String} {h n : Int}
    (hInv : Inv st) : Inv (st.hacer_reservacion vf c f h n).2 := by
  by_cases hc : c = "" ∨ f = "" ∨ h = 0 ∨ n = 0
  · rw [hacer_eq_missing hc]
    exact hInv
  cases hvf : vf f with
  | false =>
    rw [hacer_eq_badDate hc hvf]
    exact hInv
  | true =>
    cases hh : st.validar_hora h with
    | false =>
      rw [hacer_eq_badHora hc hvf hh]
      exact hInv
    | true =>
      cases hfind : ffindPair (fun m => m.numero == n) st.mesas with
      | none =>
        rw [hacer_eq_noMesa hc hvf hh hfind]
        exact hInv
      | some q =>
        obtain ⟨i, mesa⟩ := q
        obtain ⟨hmi, hpm⟩ := ffindPair_some hfind
        by_cases hfree :
            (mesa.inicializar_dia f st.horario_inicio st.horario_fin).slotGet f h = some true
        · rw [hacer_eq_success hc hvf hh hfind hfree]
          exact inv_success hInv hmi hfree
        · have hocc :
              ((mesa.inicializar_dia f st.horario_inicio st.horario_fin).slotGet f h).getD
                false = false := by
            cases hx :
                (mesa.inicializar_dia f st.horario_inicio st.horario_fin).slotGet f h with
            | none => rfl
            | some b =>
              cases b with
              | true => exact absurd hx hfree
              | false => rfl
          rw [hacer_eq_noDisp hc hvf hh hfind hocc]
          exact inv_materializa hInv hmi

theorem inv_deleted {st : Restaurante} {f fo : String} {h : Int} {j : Nat} {r0 : Reserva}
    {m : Mesa} (hInv : Inv st)
    (hfind : ffindPair
        (fun r => r.folio == fo && r.fecha_str == f && r.hora == h) st.reservas
        = some (j, r0))
    (hm : st.mesas[r0.mesa_idx]? = some m) :
    Inv { st with reservas := st.reservas.eraseIdx j,
                  mesas := st.mesas.set r0.mesa_idx (m.liberar_hora f h).2 } := by
  obtain ⟨hI, hF, hsig, hres, hpw, hkeys⟩ := hInv
  obtain ⟨hj0, hp0⟩ := ffindPair_some hfind
  have hr0mem : r0 ∈ st.reservas := mem_of_getElem?_some hj0
  obtain ⟨hrlt, hslot, hfolio⟩ := hres r0 hr0mem
  have hps : r0.folio = fo ∧ r0.fecha_str = f ∧ r0.hora = h := by
    simpa [Bool.and_eq_true, beq_iff_eq, and_assoc] using hp0
  obtain ⟨hfo, hfd, hhd⟩ := hps
  have hmslot : m.slotGet f h = some false := by
    rw [hfd, hhd] at hslot
    rwa [slotVal_eq hm] at hslot
  have hliber : m.liberar_hora f h = (true, m.slotSet f h true) :=
    liberar_hora_of_isSome (by simp [hmslot])
  simp only [hliber]
  have hsig' :
      mesaSig { st with reservas := st.reservas.eraseIdx j,
                        mesas := st.mesas.set r0.mesa_idx (m.slotSet f h true) }
        = mesaSig st :=
    mesaSig_set rfl hm (slotSet_numero ..) (slotSet_es_vip ..)
  refine ⟨hI, hF, hsig'.trans hsig, ?_, ?_, ?_⟩
  · intro r' hr'
    have hr'old : r' ∈ st.reservas := mem_of_mem_eraseIdx hr'
    obtain ⟨hrlt', hslot', hfolio'⟩ := hres r' hr'old
    have hnms : ¬ mismoSlot r' r0 := by
      rcases pairwise_eraseIdx_rel hpw hj0 r' hr' with hx | hx
      · exact fun hms => hx (mismoSlot_symm hms)
      · exact hx
    refine ⟨by simpa using hrlt', ?_, ?_⟩
    · by_cases hj' : r'.mesa_idx = r0.mesa_idx
      · rw [hj', slotVal_set_self rfl hrlt]
        have hnepair : ¬(r'.fecha_str = f ∧ r'.hora = h) := by
          rintro ⟨hx1, hx2⟩
          exact hnms ⟨hj', hx1.trans hfd.symm, hx2.trans hhd.symm⟩
        rw [slotGet_slotSet_ne hnepair]
        rw [hj', slotVal_eq hm] at hslot'
        exact hslot'
      · rw [slotVal_set_ne rfl hj']
        exact hslot'
    · rw [hfolio', folioIdx_eq_sig, folioIdx_eq_sig, hsig'.trans hsig, hsig]
  · exact List.Pairwise.sublist (List.eraseIdx_sublist st.reservas j) hpw
  · intro m' hm' p hp
    rcases mem_set_cases hm' with rfl | hm''
    · obtain ⟨q, hq, hkeq⟩ := slotSet_entry_keys hp
      rw [hkeq]
      exact hkeys m (mem_of_getElem?_some hm) q hq
    · exact hkeys m' hm'' p hp

theorem inv_eliminar {vf : String → Bool} {st : Restaurante} {f fo : String} {h : Int}
    {conf : Bool} (hInv : Inv st) : Inv (st.eliminar_reservacion vf f h fo conf).2 := by
  by_cases hc : f = "" ∨ h = 0 ∨ fo = ""
  · rw [eliminar_eq_missing hc]
    exact hInv
  cases hvf : vf f with
  | false =>
    rw [eliminar_eq_badDate hc hvf]
    exact hInv
  | true =>
    cases hh : st.validar_hora h with
    | false =>
      rw [eliminar_eq_badHora hc hvf hh]
      exact hInv
    | true =>
      cases hfind : ffindPair
          (fun r => r.folio == fo && r.fecha_str == f && r.hora == h) st.reservas with
      | none =>
        rw [eliminar_eq_notFound hc hvf hh hfind]
        exact hInv
      | some q =>
        obtain ⟨j, r0⟩ := q
        cases conf with
        | false =>
          rw [eliminar_eq_cancelled hc hvf hh hfind]
          exact hInv
        | true =>
          obtain ⟨hj0, hp0⟩ := ffindPair_some hfind
          have hr0mem : r0 ∈ st.reservas := mem_of_getElem?_some hj0
          obtain ⟨hrlt, hslot, hfolio⟩ := hInv.2.2.2.1 r0 hr0mem
          have hm : st.mesas[r0.mesa_idx]? = some st.mesas[r0.mesa_idx] :=
            List.getElem?_eq_getElem hrlt
          rw [eliminar_eq_deleted hc hvf hh hfind hm]
          exact inv_deleted hInv hfind hm

theorem inv_nuevo : Inv Restaurante.nuevo := by decide

theorem inv_paso {vf : String → Bool} {st : Restaurante} {cmd : Cmd} (hInv : Inv st) :
    Inv (paso vf st cmd) := by
  cases cmd with
  | book c f h n => exact inv_hacer hInv
  | cancel f h fo conf => exact inv_eliminar hInv

theorem inv_correr (vf : String → Bool) (cmds : List Cmd) : Inv (correr vf cmds) := by
  unfold correr
  have hgen : ∀ st, Inv st → Inv (cmds.foldl (paso vf) st) := by
    induction cmds with
    | nil => exact fun st h => h
    | cons cmd t ih => exact fun st h => ih _ (inv_paso h)
  exact hgen _ inv_nuevo

/-! ### Consequences of the invariant and inversion lemmas -/

theorem inv_mesas_len {st : Restaurante} (hInv : Inv st) : st.mesas.length = 10 := by
  rw [mesas_length_eq_sig, hInv.2.2.1, nuevo_sig_len]

theorem inv_folioIdx_inj {st : Restaurante} (hInv : Inv st) {i j : Nat}
    (hi : i < st.mesas.length) (hj : j < st.mesas.length)
    (he : folioIdx st i = folioIdx st j) : i = j := by
  have h10 := inv_mesas_len hInv
  rw [folioIdx_eq_sig, folioIdx_eq_sig, hInv.2.2.1] at he
  exact sig_folio_inj i (by omega) j (by omega) he

theorem inv_folioIdx_ne_empty {st : Restaurante} (hInv : Inv st) {i : Nat}
    (hi : i < st.mesas.length) : folioIdx st i ≠ "" := by
  have h10 := inv_mesas_len hInv
  rw [folioIdx_eq_sig, hInv.2.2.1]
  exact sig_folio_ne_empty i (by omega)

theorem generar_folio_congr {m1 m2 : Mesa} (hn : m1.numero = m2.numero)
    (hv : m1.es_vip = m2.es_vip) : generar_folio m1 = generar_folio m2 := by
  unfold generar_folio
  rw [hn, hv]

theorem hacer_success_inv {vf : String → Bool} {st st1 : Restaurante} {c f : String}
    {h n : Int} {r : Reserva}
    (hb : st.hacer_reservacion vf c f h n = (.success r, st1)) :
    ¬(c = "" ∨ f = "" ∨ h = 0 ∨ n = 0) ∧ vf f = true ∧ st.validar_hora h = true ∧
    ∃ i mesa, ffindPair (fun m => m.numero == n) st.mesas = some (i, mesa) ∧
      (mesa.inicializar_dia f st.horario_inicio st.horario_fin).slotGet f h = some true ∧
      r = Reserva.make c f h i
        ((mesa.inicializar_dia f st.horario_inicio st.horario_fin).slotSet f h false) ∧
      st1 = { st with
              mesas := (st.mesas.set i
                ((mesa.inicializar_dia f st.horario_inicio st.horario_fin).slotSet f h false)),
              reservas := (st.reservas ++ [Reserva.make c f h i
                ((mesa.inicializar_dia f st.horario_inicio st.horario_fin).slotSet f h
                  false)]) } := by
  by_cases hc : c = "" ∨ f = "" ∨ h = 0 ∨ n = 0
  · rw [hacer_eq_missing hc] at hb
    simp at hb
  cases hvf : vf f with
  | false =>
    rw [hacer_eq_badDate hc hvf] at hb
    simp at hb
  | true =>
    cases hh : st.validar_hora h with
    | false =>
      rw [hacer_eq_badHora hc hvf hh] at hb
      simp at hb
    | true =>
      cases hfind : ffindPair (fun m => m.numero == n) st.mesas with
      | none =>
        rw [hacer_eq_noMesa hc hvf hh hfind] at hb
        simp at hb
      | some q =>
        obtain ⟨i, mesa⟩ := q
        by_cases hfree :
            (mesa.inicializar_dia f st.horario_inicio st.horario_fin).slotGet f h = some true
        · rw [hacer_eq_success hc hvf hh hfind hfree] at hb
          simp only [Prod.mk.injEq, ResultadoReserva.success.injEq] at hb
          exact ⟨hc, rfl, rfl, i, mesa, rfl, hfree, hb.1.symm, hb.2.symm⟩
        · have hocc :
              ((mesa.inicializar_dia f st.horario_inicio st.horario_fin).slotGet f h).getD
                false = false := by
            cases hx :
                (mesa.inicializar_dia f st.horario_inicio st.horario_fin).slotGet f h with
            | none => rfl
            | some b =>
              cases b with
              | true => exact absurd hx hfree
              | false => rfl
          rw [hacer_eq_noDisp hc hvf hh hfind hocc] at hb
          simp at hb

theorem hacer_noDisp_inv {vf : String → Bool} {st : Restaurante} {c f : String} {h n : Int}
    (hout : (st.hacer_reservacion vf c f h n).1 = .slotUnavailable) :
    ∃ i mesa, ffindPair (fun m => m.numero == n) st.mesas = some (i, mesa) ∧
      (st.hacer_reservacion vf c f h n).2 = { st with
        mesas := (st.mesas.set i
          (mesa.inicializar_dia f st.horario_inicio st.horario_fin)) } := by
  by_cases hc : c = "" ∨ f = "" ∨ h = 0 ∨ n = 0
  · rw [hacer_eq_missing hc] at hout
    simp at hout
  cases hvf : vf f with
  | false =>
    rw [hacer_eq_badDate hc hvf] at hout
    simp at hout
  | true =>
    cases hh : st.validar_hora h with
    | false =>
      rw [hacer_eq_badHora hc hvf hh] at hout
      simp at hout
    | true =>
      cases hfind : ffindPair (fun m => m.numero == n) st.mesas with
      | none =>
        rw [hacer_eq_noMesa hc hvf hh hfind] at hout
        simp at hout
      | some q =>
        obtain ⟨i, mesa⟩ := q
        by_cases hfree :
            (mesa.inicializar_dia f st.horario_inicio st.horario_fin).slotGet f h = some true
        · rw [hacer_eq_success hc hvf hh hfind hfree] at hout
          simp at hout
        · have hocc :
              ((mesa.inicializar_dia f st.horario_inicio st.horario_fin).slotGet f h).getD
                false = false := by
            cases hx :
                (mesa.inicializar_dia f st.horario_inicio st.horario_fin).slotGet f h with
            | none => rfl
            | some b =>
              cases b with
              | true => exact absurd hx hfree
              | false => rfl
          rw [hacer_eq_noDisp hc hvf hh hfind hocc]
          exact ⟨i, mesa, rfl, rfl⟩

theorem filaPaso_initialized {f : String} {hi hf : Int} {m1 : Mesa}
    (hin : (alookup m1.disponibilidad f).isSome) (acc : List (Int × Bool)) (hora : Int) :
    filaPaso f hi hf (m1, acc) hora
      = (m1, acc ++ [(hora, (m1.slotGet f hora).getD false)]) := by
  unfold filaPaso
  rw [esta_disponible_eq, inicializar_of_isSome hin]

theorem mesaFila_foldl {f : String} {hi hf : Int} {m1 : Mesa}
    (hin : (alookup m1.disponibilidad f).isSome) :
    ∀ (hs : List Int) (acc : List (Int × Bool)),
      hs.foldl (filaPaso f hi hf) (m1, acc)
        = (m1, acc ++ hs.map (fun hora => (hora, (m1.slotGet f hora).getD false))) := by
  intro hs
  induction hs with
  | nil => intro acc; simp
  | cons x t ih =>
    intro acc
    rw [List.foldl_cons, filaPaso_initialized hin, ih]
    simp

theorem mesaFila_eq (m : Mesa) (f : String) (hi hf : Int) :
    mesaFila m f hi hf = (m.inicializar_dia f hi hf,
      (intRange hi hf).map (fun hora =>
        (hora, ((m.inicializar_dia f hi hf).slotGet f hora).getD false))) := by
  unfold mesaFila
  rw [mesaFila_foldl (inicializar_isSome ..)]
  simp

/-! ### Claim theorems -/

/-- C1: for every sequence of `hacer_reservacion` and `eliminar_reservacion` calls
starting from a fresh registry, no two active reservations in the registry's
`reservas` list reference the same (resource id, date, hour) triple. -/
theorem no_double_booking (vf : String → Bool) (cmds : List Cmd) :
    (correr vf cmds).reservas.Pairwise
      (fun r1 r2 => ¬(resourceId (correr vf cmds) r1 = resourceId (correr vf cmds) r2 ∧
        r1.fecha_str = r2.fecha_str ∧ r1.hora = r2.hora)) := by
  have hInv := inv_correr vf cmds
  obtain ⟨hI, hF, hsig, hres, hpw, hkeys⟩ := hInv
  have hlen : (correr vf cmds).mesas.length = 10 := inv_mesas_len (inv_correr vf cmds)
  refine List.Pairwise.imp_of_mem ?_ hpw
  intro r1 r2 h1 h2 hnm
  rintro ⟨hid, hfd, hhd⟩
  refine hnm ⟨?_, hfd, hhd⟩
  obtain ⟨hlt1, -, -⟩ := hres r1 h1
  obtain ⟨hlt2, -, -⟩ := hres r2 h2
  rw [resourceId_eq_sig, resourceId_eq_sig, hsig] at hid
  exact sig_fst_inj r1.mesa_idx (by omega) r2.mesa_idx (by omega) hid

/-- C2 counterexample: on a fresh table, `esta_disponible` at hour 20 (absent
from the materialized date entry, which only holds hours 13-16) returns
`false`, not the free default `true` that the claim states. -/
theorem esta_disponible_default_cex :
    alookup
        ((alookup (Mesa.esta_disponible ⟨1, false, []⟩ "2025-07-10" 20 13 16).2.disponibilidad
          "2025-07-10").getD []) 20 = none ∧
    (Mesa.esta_disponible ⟨1, false, []⟩ "2025-07-10" 20 13 16).1 = false ∧
    (Mesa.esta_disponible ⟨1, false, []⟩ "2025-07-10" 20 13 16).1 ≠ true := by
  decide

/-- C2 amended: `esta_disponible` first materializes the date and then returns
the looked-up entry, defaulting to occupied (`false`, not `true`) when the
hour key is absent from the date's mapping; the date key itself is always
present afterwards. -/
theorem esta_disponible_defaults (m : Mesa) (f : String) (h hi hf : Int) :
    m.esta_disponible f h hi hf
      = (((m.inicializar_dia f hi hf).slotGet f h).getD false, m.inicializar_dia f hi hf) ∧
    (alookup (m.esta_disponible f h hi hf).2.disponibilidad f).isSome := by
  refine ⟨esta_disponible_eq .., ?_⟩
  rw [esta_disponible_eq]
  exact inicializar_isSome ..

/-- C3: `hacer_reservacion` checks its preconditions in the fixed order
missing-fields, date format, hour window, resource existence, slot freeness,
short-circuiting on the first failure with the corresponding outcome and no
reservation created. -/
theorem hacer_precondicion_orden (vf : String → Bool) (st : Restaurante)
    (c f : String) (h n : Int) :
    ((c = "" ∨ f = "" ∨ h = 0 ∨ n = 0) →
        st.hacer_reservacion vf c f h n = (.missingFields, st)) ∧
    (¬(c = "" ∨ f = "" ∨ h = 0 ∨ n = 0) → vf f = false →
        st.hacer_reservacion vf c f h n = (.invalidDateFormat, st)) ∧
    (¬(c = "" ∨ f = "" ∨ h = 0 ∨ n = 0) → vf f = true → st.validar_hora h = false →
        st.hacer_reservacion vf c f h n = (.invalidHour, st)) ∧
    (¬(c = "" ∨ f = "" ∨ h = 0 ∨ n = 0) → vf f = true → st.validar_hora h = true →
        ffindPair (fun m => m.numero == n) st.mesas = none →
        st.hacer_reservacion vf c f h n = (.resourceNotFound, st)) ∧
    (∀ (i : Nat) (mesa : Mesa),
        ¬(c = "" ∨ f = "" ∨ h = 0 ∨ n = 0) → vf f = true → st.validar_hora h = true →
        ffindPair (fun m => m.numero == n) st.mesas = some (i, mesa) →
        (mesa.esta_disponible f h st.horario_inicio st.horario_fin).1 = false →
        (st.hacer_reservacion vf c f h n).1 = .slotUnavailable ∧
        (st.hacer_reservacion vf c f h n).2.reservas = st.reservas) := by
  refine ⟨fun hc => hacer_eq_missing hc,
    fun hc hvf => hacer_eq_badDate hc hvf,
    fun hc hvf hh => hacer_eq_badHora hc hvf hh,
    fun hc hvf hh hfind => hacer_eq_noMesa hc hvf hh hfind,
    fun i mesa hc hvf hh hfind hocc => ?_⟩
  simp only [esta_disponible_eq] at hocc
  rw [hacer_eq_noDisp hc hvf hh hfind hocc]
  exact ⟨rfl, rfl⟩

/-- C4 counterexample: with an ill-formed date and hour 20 the outcome is
InvalidDateFormat, and with hour 0 (outside the window but falsy in Python's
`all` check) the outcome is MissingFields — in both cases the hour is outside
the window yet the outcome is not InvalidHour. -/
theorem hacer_hora_cex :
    Restaurante.nuevo.validar_hora 20 = false ∧
    (Restaurante.nuevo.hacer_reservacion (fun _ => false) "Ana" "2025-07-10" 20 3).1
      = .invalidDateFormat ∧
    (Restaurante.nuevo.hacer_reservacion (fun _ => false) "Ana" "2025-07-10" 20 3).1
      ≠ .invalidHour ∧
    Restaurante.nuevo.validar_hora 0 = false ∧
    (Restaurante.nuevo.hacer_reservacion vfTodo "Ana" "2025-07-10" 0 3).1 = .missingFields ∧
    (Restaurante.nuevo.hacer_reservacion vfTodo "Ana" "2025-07-10" 0 3).1 ≠ .invalidHour := by
  decide

/-- C4 amended: for every present (non-empty / nonzero) field values with a
well-formed date and every nonzero hour outside the operating window,
`hacer_reservacion` fails with InvalidHour, regardless of whether the
requested resource exists. -/
theorem hacer_hora_invalida (vf : String → Bool) (st : Restaurante) (c f : String)
    (h n : Int) (hc : c ≠ "") (hf : f ≠ "") (hh0 : h ≠ 0) (hn : n ≠ 0)
    (hvf : vf f = true) (hw : st.validar_hora h = false) :
    st.hacer_reservacion vf c f h n = (.invalidHour, st) :=
  hacer_eq_badHora (by simp [hc, hf, hh0, hn]) hvf hw

/-- C4 witness: booking with hour 20 and a nonexistent table 999 on the fresh
registry fails with InvalidHour. -/
theorem hacer_hora_invalida_witness :
    Restaurante.nuevo.hacer_reservacion vfTodo "Ana" "2025-07-10" 20 999
      = (.invalidHour, Restaurante.nuevo) :=
  hacer_hora_invalida vfTodo Restaurante.nuevo "Ana" "2025-07-10" 20 999
    (by decide) (by decide) (by decide) (by decide) (by decide) (by decide)

/-- C6: the identifier of every constructed reservation is the concatenation of
the prefix (`VX` for Premium/VIP, `GX` otherwise) with the resource id; in the
default inventory, booking table 3 yields `GX3` and booking table 7 yields
`VX7`. -/
theorem folio_derivacion :
    (∀ (c f : String) (h : Int) (i : Nat) (m : Mesa),
        (Reserva.make c f h i m).folio
          = (if m.es_vip then "VX" else "GX") ++ toString m.numero) ∧
    resFolio (Restaurante.nuevo.hacer_reservacion vfTodo "Ana" "2025-07-10" 13 3).1
      = some "GX3" ∧
    resFolio (Restaurante.nuevo.hacer_reservacion vfTodo "Beto" "2025-07-10" 13 7).1
      = some "VX7" :=
  ⟨fun _ _ _ _ _ => rfl, by decide, by decide⟩

/-- C8: `liberar_hora` succeeds and marks the hour free exactly when both the
date and the hour exist in the calendar; otherwise it fails and leaves the
table unchanged — in particular it never creates the date entry. -/
theorem liberar_hora_spec (m : Mesa) (f : String) (h : Int) :
    ((m.liberar_hora f h).1 = true ↔
        ∃ e, alookup m.disponibilidad f = some e ∧ (alookup e h).isSome) ∧
    ((m.liberar_hora f h).1 = false → (m.liberar_hora f h).2 = m) ∧
    ((m.liberar_hora f h).1 = true → (m.liberar_hora f h).2.slotGet f h = some true) ∧
    (alookup m.disponibilidad f = none → m.liberar_hora f h = (false, m)) := by
  by_cases hs : (m.slotGet f h).isSome
  · obtain ⟨e, he, hei⟩ : ∃ e, alookup m.disponibilidad f = some e ∧ (alookup e h).isSome := by
      unfold Mesa.slotGet at hs
      cases ho : alookup m.disponibilidad f with
      | none => rw [ho] at hs; simp at hs
      | some e =>
        rw [ho] at hs
        exact ⟨e, rfl, by simpa using hs⟩
    rw [liberar_hora_of_isSome hs]
    refine ⟨⟨fun _ => ⟨e, he, hei⟩, fun _ => rfl⟩, by simp,
      fun _ => slotGet_slotSet_self hs, fun hnone => ?_⟩
    rw [hnone] at he
    exact absurd he (by simp)
  · have hnone : m.slotGet f h = none := Option.not_isSome_iff_eq_none.mp hs
    rw [liberar_hora_of_none hnone]
    refine ⟨⟨by simp, ?_⟩, fun _ => rfl, by simp, fun _ => rfl⟩
    rintro ⟨e, he, hei⟩
    exfalso
    unfold Mesa.slotGet at hnone
    rw [he] at hnone
    simp only [Option.some_bind] at hnone
    rw [hnone] at hei
    simp at hei

/-- C9: when `eliminar_reservacion` finds a matching reservation but the
external confirmation is negative, it yields the distinct CancelledByUser
outcome (different from every error outcome) and leaves the registry — its
reservation list and every calendar slot — unchanged. -/
theorem eliminar_declinada (vf : String → Bool) (st : Restaurante) (f fo : String)
    (h : Int) (j : Nat) (r0 : Reserva)
    (hc : ¬(f = "" ∨ h = 0 ∨ fo = "")) (hvf : vf f = true) (hh : st.validar_hora h = true)
    (hfind : ffindPair
        (fun r => r.folio == fo && r.fecha_str == f && r.hora == h) st.reservas
        = some (j, r0)) :
    st.eliminar_reservacion vf f h fo false = (.cancelledByUser, st) ∧
    ResultadoCancel.cancelledByUser ≠ .missingFields ∧
    ResultadoCancel.cancelledByUser ≠ .invalidDateFormat ∧
    ResultadoCancel.cancelledByUser ≠ .invalidHour ∧
    ResultadoCancel.cancelledByUser ≠ .reservationNotFound :=
  ⟨eliminar_eq_cancelled hc hvf hh hfind, by decide, by decide, by decide, by decide⟩

/-- C9 witness: declining the confirmation for Ana's reservation leaves the
registry exactly as it was. -/
theorem eliminar_declinada_witness :
    stAna.eliminar_reservacion vfTodo "2025-07-10" 13 "VX6" false
      = (.cancelledByUser, stAna) ∧
    ResultadoCancel.cancelledByUser ≠ .missingFields ∧
    ResultadoCancel.cancelledByUser ≠ .invalidDateFormat ∧
    ResultadoCancel.cancelledByUser ≠ .invalidHour ∧
    ResultadoCancel.cancelledByUser ≠ .reservationNotFound :=
  eliminar_declinada vfTodo stAna "2025-07-10" "VX6" 13 0
    ⟨"Ana", "2025-07-10", 13, 5, "VX6"⟩ (by decide) (by decide) (by decide) (by decide)

/-- C10: when `hacer_reservacion` fails with SlotUnavailable, the requested
date has nevertheless been materialized on the target table — its calendar has
an explicit entry for every hour of the operating window on that date — while
no reservation is created and no slot's occupied/free status changes. -/
theorem slot_unavailable_materializa (vf : String → Bool) (st : Restaurante)
    (c f : String) (h n : Int) (hInv : Inv st)
    (hout : (st.hacer_reservacion vf c f h n).1 = .slotUnavailable) :
    (st.hacer_reservacion vf c f h n).2.reservas = st.reservas ∧
    (∃ i mesa, ffindPair (fun m => m.numero == n) st.mesas = some (i, mesa) ∧
      ∀ hh : Int, st.horario_inicio ≤ hh → hh ≤ st.horario_fin →
        (slotVal (st.hacer_reservacion vf c f h n).2 i f hh).isSome) ∧
    (∀ (j : Nat) (fecha : String) (hora : Int),
        slotVal (st.hacer_reservacion vf c f h n).2 j fecha hora = some false
          ↔ slotVal st j fecha hora = some false) := by
  obtain ⟨i, mesa, hfind, hst'⟩ := hacer_noDisp_inv hout
  obtain ⟨hmi, hpm⟩ := ffindPair_some hfind
  have hlt : i < st.mesas.length := lt_of_getElem?_some hmi
  obtain ⟨hI, hF, hsig, hres, hpw, hkeys⟩ := hInv
  rw [hst']
  refine ⟨rfl, ⟨i, mesa, hfind, ?_⟩, ?_⟩
  · intro hh h1 h2
    rw [slotVal_set_self rfl hlt]
    cases ho : alookup mesa.disponibilidad f with
    | none =>
      rw [slotGet_inicializar_self_none ho, if_pos ⟨h1, h2⟩]
      rfl
    | some e =>
      rw [inicializar_of_isSome (by simp [ho])]
      unfold Mesa.slotGet
      rw [ho]
      simp only [Option.some_bind]
      apply alookup_isSome_of_mem_keys
      rw [hkeys mesa (mem_of_getElem?_some hmi) (f, e) (alookup_mem ho)]
      rw [hI] at h1
      rw [hF] at h2
      exact mem_intRange.mpr ⟨h1, h2⟩
  · intro j fecha hora
    by_cases hj : j = i
    · rw [hj, slotVal_set_self rfl hlt, slotVal_eq hmi]
      exact slotGet_inicializar_false_iff
    · rw [slotVal_set_ne rfl hj]

/-- C10 witness: on the registry where Ana holds table 6 at 13:00, Ben's
attempt to book the same slot fails with SlotUnavailable, creates no
reservation, changes no slot's status, and leaves the date fully materialized
on table 6. -/
theorem slot_unavailable_materializa_witness :
    (stAna.hacer_reservacion vfTodo "Ben" "2025-07-10" 13 6).2.reservas = stAna.reservas ∧
    (∃ i mesa, ffindPair (fun m => m.numero == (6 : Int)) stAna.mesas = some (i, mesa) ∧
      ∀ hh : Int, stAna.horario_inicio ≤ hh → hh ≤ stAna.horario_fin →
        (slotVal (stAna.hacer_reservacion vfTodo "Ben" "2025-07-10" 13 6).2 i "2025-07-10"
          hh).isSome) ∧
    (∀ (j : Nat) (fecha : String) (hora : Int),
        slotVal (stAna.hacer_reservacion vfTodo "Ben" "2025-07-10" 13 6).2 j fecha hora
            = some false
          ↔ slotVal stAna j fecha hora = some false) :=
  slot_unavailable_materializa vfTodo stAna "Ben" "2025-07-10" 13 6 (by decide) (by decide)

/-- C7: `ver_disponibilidad` on a well-formed date never changes any slot's
occupied/free status (its only mutation is materializing absent dates all
free), and on a never-touched date its report shows every window hour free
for every table. -/
theorem ver_disponibilidad_segura (vf : String → Bool) (st : Restaurante) (f : String)
    (hvf : vf f = true) :
    (∀ (j : Nat) (fecha : String) (hora : Int),
        slotVal (st.ver_disponibilidad vf f).2 j fecha hora = some false
          ↔ slotVal st j fecha hora = some false) ∧
    ((∀ m ∈ st.mesas, alookup m.disponibilidad f = none) →
      ∃ filas, (st.ver_disponibilidad vf f).1 = some filas ∧
        (∀ fila ∈ filas, fila.2.2
            = (intRange st.horario_inicio st.horario_fin).map (fun hora => (hora, true))) ∧
        (∀ m ∈ st.mesas, ∃ fila ∈ filas, fila.1 = m.numero)) := by
  have hveq : st.ver_disponibilidad vf f
      = (some ((st.mesas.mergeSort mesaLe).map
          (fun m => (m.numero, m.es_vip, (mesaFila m f st.horario_inicio st.horario_fin).2))),
         { st with mesas :=
            st.mesas.map (fun m => (mesaFila m f st.horario_inicio st.horario_fin).1) }) := by
    unfold Restaurante.ver_disponibilidad
    rw [if_neg (by simp [hvf])]
  rw [hveq]
  constructor
  · intro j fecha hora
    unfold slotVal
    simp only [List.getElem?_map]
    cases hj : st.mesas[j]? with
    | none => simp
    | some m =>
      simp only [Option.map_some', mesaFila_eq]
      exact slotGet_inicializar_false_iff
  · intro hnone
    refine ⟨_, rfl, ?_, ?_⟩
    · intro fila hfila
      obtain ⟨m, hm, rfl⟩ := List.mem_map.mp hfila
      have hm' : m ∈ st.mesas := List.mem_mergeSort.mp hm
      show (mesaFila m f st.horario_inicio st.horario_fin).2 = _
      rw [mesaFila_eq]
      apply List.map_congr_left
      intro hora hmem
      have hw := mem_intRange.mp hmem
      rw [slotGet_inicializar_self_none (hnone m hm'), if_pos hw]
      rfl
    · intro m hm
      exact ⟨(m.numero, m.es_vip, (mesaFila m f st.horario_inicio st.horario_fin).2),
        List.mem_map_of_mem _ (List.mem_mergeSort.mpr hm), rfl⟩

/-- C7 witness: on the fresh registry and the untouched date 2025-07-10 the
report exists, lists every window hour as free for every table, and no slot's
occupied status changes. -/
theorem ver_disponibilidad_segura_witness :
    (∀ (j : Nat) (fecha : String) (hora : Int),
        slotVal (Restaurante.nuevo.ver_disponibilidad vfTodo "2025-07-10").2 j fecha hora
            = some false
          ↔ slotVal Restaurante.nuevo j fecha hora = some false) ∧
    ((∀ m ∈ Restaurante.nuevo.mesas, alookup m.disponibilidad "2025-07-10" = none) →
      ∃ filas, (Restaurante.nuevo.ver_disponibilidad vfTodo "2025-07-10").1 = some filas ∧
        (∀ fila ∈ filas, fila.2.2
            = (intRange Restaurante.nuevo.horario_inicio Restaurante.nuevo.horario_fin).map
                (fun hora => (hora, true))) ∧
        (∀ m ∈ Restaurante.nuevo.mesas, ∃ fila ∈ filas, fila.1 = m.numero)) :=
  ver_disponibilidad_segura vfTodo Restaurante.nuevo "2025-07-10" (by decide)

/-- C5: from any state satisfying the registry invariant, a successful
`hacer_reservacion` followed by a confirmed `eliminar_reservacion` with the
reservation's folio, date and hour succeeds, marks the slot explicitly free
again (it was not occupied before the booking), and restores the reservation
list exactly to its pre-booking value. -/
theorem reserva_roundtrip (vf : String → Bool) (st st1 : Restaurante) (c f : String)
    (h n : Int) (r : Reserva) (hInv : Inv st)
    (hb : st.hacer_reservacion vf c f h n = (.success r, st1)) :
    (st1.eliminar_reservacion vf f h r.folio true).1 = .deleted ∧
    (st1.eliminar_reservacion vf f h r.folio true).2.reservas = st.reservas ∧
    slotVal (st1.eliminar_reservacion vf f h r.folio true).2 r.mesa_idx f h = some true ∧
    slotVal st r.mesa_idx f h ≠ some false := by
  obtain ⟨hc, hvf, hh, i, mesa, hfind, hfree, hr, hst1⟩ := hacer_success_inv hb
  obtain ⟨hmi, hpm⟩ := ffindPair_some hfind
  have hlt : i < st.mesas.length := lt_of_getElem?_some hmi
  subst hr hst1
  set m1 := mesa.inicializar_dia f st.horario_inicio st.horario_fin with hm1def
  set m2 := m1.slotSet f h false with hm2def
  have hfolio_eq : (Reserva.make c f h i m2).folio = folioIdx st i := by
    show generar_folio m2 = _
    unfold folioIdx
    rw [hmi]
    exact generar_folio_congr
      (by rw [hm2def, slotSet_numero, hm1def, inicializar_numero])
      (by rw [hm2def, slotSet_es_vip, hm1def, inicializar_es_vip])
  have hfne : f ≠ "" := fun he => hc (Or.inr (Or.inl he))
  have hhne : h ≠ 0 := fun he => hc (Or.inr (Or.inr (Or.inl he)))
  have hfone : (Reserva.make c f h i m2).folio ≠ "" := by
    rw [hfolio_eq]
    exact inv_folioIdx_ne_empty hInv hlt
  have hc' : ¬(f = "" ∨ h = 0 ∨ (Reserva.make c f h i m2).folio = "") := by
    rintro (he | he | he)
    · exact hfne he
    · exact hhne he
    · exact hfone he
  obtain ⟨hI, hF, hsig, hres, hpw, hkeys⟩ := hInv
  have hnoold : ∀ r' ∈ st.reservas,
      (fun r' => r'.folio == (Reserva.make c f h i m2).folio
        && r'.fecha_str == f && r'.hora == h) r' = false := by
    intro r' hr'
    obtain ⟨hrlt', hslot', hfolio'⟩ := hres r' hr'
    by_contra hne
    rw [Bool.not_eq_false] at hne
    simp only [Bool.and_eq_true, beq_iff_eq] at hne
    obtain ⟨⟨hfo', hfd'⟩, hhd'⟩ := hne
    rw [hfolio', hfolio_eq] at hfo'
    have hij : r'.mesa_idx = i :=
      inv_folioIdx_inj ⟨hI, hF, hsig, hres, hpw, hkeys⟩ hrlt' hlt hfo'
    rw [hij, hfd', hhd', slotVal_eq hmi] at hslot'
    have hcontra : m1.slotGet f h = some false := slotGet_inicializar_of_some hslot'
    rw [hfree] at hcontra
    simp at hcontra
  have hfind2 : ffindPair
      (fun r' => r'.folio == (Reserva.make c f h i m2).folio
        && r'.fecha_str == f && r'.hora == h)
      (st.reservas ++ [Reserva.make c f h i m2])
      = some (st.reservas.length, Reserva.make c f h i m2) :=
    ffindPair_append_singleton hnoold (by simp [Reserva.make])
  have hm2' : (st.mesas.set i m2)[(Reserva.make c f h i m2).mesa_idx]? = some m2 := by
    show (st.mesas.set i m2)[i]? = some m2
    exact List.getElem?_set_self hlt
  have hdel := @eliminar_eq_deleted
    { st with mesas := (st.mesas.set i m2),
              reservas := (st.reservas ++ [Reserva.make c f h i m2]) }
    vf f ((Reserva.make c f h i m2).folio) h st.reservas.length
    (Reserva.make c f h i m2) m2 hc' hvf hh hfind2 hm2'
  rw [hdel]
  have hm2slot : m2.slotGet f h = some false := by
    rw [hm2def]
    exact slotGet_slotSet_self (by simp [hfree])
  have hlib : m2.liberar_hora f h = (true, m2.slotSet f h true) :=
    liberar_hora_of_isSome (by simp [hm2slot])
  refine ⟨rfl, ?_, ?_, ?_⟩
  · show (st.reservas ++ [Reserva.make c f h i m2]).eraseIdx st.reservas.length = st.reservas
    exact eraseIdx_append_length ..
  · have hmesas2 : ((st.mesas.set i m2).set i ((m2.liberar_hora f h).2))
        = st.mesas.set i (m2.slotSet f h true) := by
      rw [hlib, List.set_set]
    show slotVal _ i f h = some true
    rw [slotVal_set_self hmesas2 hlt]
    rw [hm2def]
    refine (slotGet_slotSet_self ?_).trans ?_
    · rw [← hm2def]
      simp [hm2slot]
    · rfl
  · show slotVal st i f h ≠ some false
    rw [slotVal_eq hmi]
    intro hcontra
    have hx : m1.slotGet f h = some false := slotGet_inicializar_of_some hcontra
    rw [hfree] at hx
    simp at hx

/-- C5 witness: Ana books table 6 on 2025-07-10 at 13:00 from the fresh
registry; a confirmed cancellation with folio VX6 restores the empty
reservation list and the slot is free. -/
theorem reserva_roundtrip_witness :
    (stAna.eliminar_reservacion vfTodo "2025-07-10" 13 "VX6" true).1 = .deleted ∧
    (stAna.eliminar_reservacion vfTodo "2025-07-10" 13 "VX6" true).2.reservas
      = Restaurante.nuevo.reservas ∧
    slotVal (stAna.eliminar_reservacion vfTodo "2025-07-10" 13 "VX6" true).2 5 "2025-07-10" 13
      = some true ∧
    slotVal Restaurante.nuevo 5 "2025-07-10" 13 ≠ some false :=
  reserva_roundtrip vfTodo Restaurante.nuevo stAna "Ana" "2025-07-10" 13 6
    ⟨"Ana", "2025-07-10", 13, 5, "VX6"⟩ (by decide) (by decide)

end Reservacion
